import Mathlib

set_option autoImplicit false
set_option maxHeartbeats 1000000

/-!
Shallow embedding of `src/api/models.py` (the plist-repository core of
munkiwebadmin: `Plist.list`, `Plist.new`, `Plist.read`, `Plist.write`,
`Plist.delete`).

The repository filesystem under `REPO_DIR` is modelled as a tree of named
nodes (`Node`); a relative pathname such as `"foo/bar.plist"` is modelled
as its list of `/`-separated segments `["foo", "bar.plist"]`, and the file
resolved by an identifier `(kind, pathname)` lives at the segment path
`kind :: pathname` below the repository root.  I/O failures that depend on
the outside world (permissions, races) are injected through an `Env`
oracle; failures that are structurally forced (opening a directory for
writing, unlinking a directory, `os.makedirs` running into an existing
file) are produced deterministically from the tree.
-/

/-- Value type of a structured record (plist values). -/
inductive PValue where
  | str : String → PValue
  | int : Int → PValue
  | bool : Bool → PValue
  | arr : List PValue → PValue
  | dict : List (String × PValue) → PValue
deriving Repr

/-- A parsed plist record: an ordered mapping from string keys to values. -/
abbrev PDict := List (String × PValue)

/-- Modelled from the spec: the on-disk byte content of a record, as seen
through the structured-record codec collaborator of spec section 6
(`plistlib`, which is not code of this repository).  `wellFormed d` stands
for any byte string that parses structurally to the mapping `d`;
`malformed n` stands for content whose structural parse raises
`ExpatError`. -/
inductive Bytes where
  | wellFormed : PDict → Bytes
  | malformed : Nat → Bytes
deriving Repr

/-- Modelled from the spec: `plistlib.writePlistToString` (codec
serialization, spec section 6 requires round-trip fidelity). -/
def writePlistToString (d : PDict) : Bytes := .wellFormed d

/-- Modelled from the spec: the parsing step of `plistlib.readPlist`;
`none` is a structural `ExpatError`. -/
def parsePlist : Bytes → Option PDict
  | .wellFormed d => some d
  | .malformed _ => none

/-- A node of the repository filesystem tree: either a regular file with
byte content, or a directory with a list of named children. -/
inductive Node where
  | file : Bytes → Node
  | dir : List (String × Node) → Node
deriving Repr

/-- First child with the given name (directory entry lookup). -/
def childNamed (s : String) : List (String × Node) → Option Node
  | [] => none
  | (n, t) :: cs => if n == s then some t else childNamed s cs

/-- Replace the node of the first child named `s` (entry kept in place);
if no child is named `s`, append a new entry at the end. -/
def setChild (s : String) (t : Node) : List (String × Node) → List (String × Node)
  | [] => [(s, t)]
  | (n, u) :: cs => if n == s then (n, t) :: cs else (n, u) :: setChild s t cs

/-- Replace the node of the first child named `s`; no effect if absent. -/
def replaceChild (s : String) (t : Node) : List (String × Node) → List (String × Node)
  | [] => []
  | (n, u) :: cs => if n == s then (n, t) :: cs else (n, u) :: replaceChild s t cs

/-- Remove the first child named `s`. -/
def dropChild (s : String) : List (String × Node) → List (String × Node)
  | [] => []
  | (n, u) :: cs => if n == s then cs else (n, u) :: dropChild s cs

/-- Resolve a segment path in a tree. -/
def Node.lookup : Node → List String → Option Node
  | t, [] => some t
  | .file _, _ :: _ => none
  | .dir cs, s :: rest =>
    match childNamed s cs with
    | some t => Node.lookup t rest
    | none => none

/-- Counterpart of `os.path.exists`: true for files and directories. -/
def Node.existsAt (t : Node) (p : List String) : Bool :=
  (t.lookup p).isSome

/-- True when the path resolves to a regular file. -/
def Node.isFileAt (t : Node) (p : List String) : Bool :=
  match t.lookup p with
  | some (.file _) => true
  | _ => false

/-- True when the path resolves to a directory. -/
def Node.isDirAt (t : Node) (p : List String) : Bool :=
  match t.lookup p with
  | some (.dir _) => true
  | _ => false

/-- Effect of `os.makedirs`: create every missing directory along the
path.  The blocked case (a path component already exists as a regular
file, which makes the real `os.makedirs` raise `OSError`) is detected
separately by `Node.mkdirBlocked` and never reaches this function. -/
def Node.mkdirAll : Node → List String → Node
  | t, [] => t
  | .file c, _ :: _ => .file c
  | .dir cs, s :: rest =>
    match childNamed s cs with
    | some t => .dir (replaceChild s (t.mkdirAll rest) cs)
    | none => .dir (cs ++ [(s, (Node.dir []).mkdirAll rest)])

/-- True when `os.makedirs p` would raise `OSError` because some
component of `p` already exists as a regular file. -/
def Node.mkdirBlocked (t : Node) (p : List String) : Bool :=
  (List.range p.length).any (fun i => t.isFileAt (p.take (i + 1)))

/-- True when `open(p, 'w')` can succeed structurally: the parent
resolves to a directory and `p` itself is not a directory. -/
def Node.openWriteOk (t : Node) (p : List String) : Bool :=
  t.isDirAt p.dropLast && !t.isDirAt p

/-- Effect of a successful `open(p, 'w')` followed by a write: put a
regular file with content `d` at `p` (creating or truncating it).  The
cases where the real `open` would fail (`p` empty, a proper prefix of `p`
not a directory) leave the tree unchanged; they are guarded out by
`Node.openWriteOk` before this function is used. -/
def Node.setFile : Node → List String → Bytes → Node
  | t, [], _ => t
  | .file c, _ :: _, _ => .file c
  | .dir cs, [s], d => .dir (setChild s (Node.file d) cs)
  | .dir cs, s :: r :: rest, d =>
    match childNamed s cs with
    | some t => .dir (replaceChild s (t.setFile (r :: rest) d) cs)
    | none => .dir cs

/-- Effect of a successful `os.unlink p`: remove the entry at `p`.  Only
invoked after the caller established that `p` is a regular file. -/
def Node.removeAt : Node → List String → Node
  | t, [] => t
  | .file c, _ :: _ => .file c
  | .dir cs, [s] => .dir (dropChild s cs)
  | .dir cs, s :: r :: rest =>
    match childNamed s cs with
    | some t => .dir (replaceChild s (t.removeAt (r :: rest)) cs)
    | none => .dir cs

/-- A usable directory-entry name on a real filesystem: nonempty and free
of the path separator. -/
def validName (s : String) : Bool :=
  !s.data.isEmpty && !s.data.contains '/'

/-- No two entries share a name (true of every real directory). -/
def nodupNames : List (String × Node) → Bool
  | [] => true
  | (n, _) :: cs => !cs.any (fun c => c.1 == n) && nodupNames cs

mutual

/-- Well-formedness of a tree as a filesystem: every directory has
pairwise distinct, valid child names. -/
def Node.wf : Node → Bool
  | .file _ => true
  | .dir cs => nodupNames cs && wfChildren cs

/-- Well-formedness of a list of directory entries. -/
def wfChildren : List (String × Node) → Bool
  | [] => true
  | (n, t) :: cs => validName n && Node.wf t && wfChildren cs

end

/-- The directory names pruned from `os.walk` in `Plist.list`
(models.py line 60). -/
def skipdirs : List String := [".svn", ".git", ".AppleDouble"]

/-- Counterpart of `os.path.join(subdir, name)` on the already
`lstrip('/')`-normalized relative subdir carried by the walk. -/
def osJoin (a b : String) : String :=
  if a = "" then b else a ++ "/" ++ b

/-- Counterpart of Python's `name.startswith('.')`: the first character
is a dot. -/
def startsWithDot (s : String) : Bool :=
  match s.data with
  | [] => false
  | c :: _ => c == '.'

/-- Names of the regular files among a directory's entries
(`filenames` of `os.walk`). -/
def fileNames : List (String × Node) → List String
  | [] => []
  | (n, Node.file _) :: cs => n :: fileNames cs
  | (_, Node.dir _) :: cs => fileNames cs

/-- Relative paths contributed by the current directory of the walk:
models.py lines 66-67, filenames whose name does not start with a dot,
joined to the relative subdir. -/
def hereFiles (sub : String) (cs : List (String × Node)) : List String :=
  ((fileNames cs).filter (fun n => !startsWithDot n)).map (fun n => osJoin sub n)

mutual

/-- The `os.walk` traversal of models.py lines 61-67: files of the
current directory first, then the subdirectories in order, with the
`skipdirs` pruned from recursion.  Walking a non-directory yields
nothing, as `os.walk` does. -/
def Node.walk : String → Node → List String
  | _, .file _ => []
  | sub, .dir cs => hereFiles sub cs ++ walkChildren sub cs

/-- Recursion of the walk into the subdirectories of one directory. -/
def walkChildren : String → List (String × Node) → List String
  | _, [] => []
  | sub, (n, u) :: cs =>
    (match u with
     | Node.file _ => []
     | Node.dir _ =>
       if skipdirs.contains n then [] else Node.walk (osJoin sub n) u)
      ++ walkChildren sub cs

end

/-- Kinds of exception an injected failure can carry: Python's `IOError`,
`OSError`, or some other exception class. -/
inductive ErrKind where
  | ioError
  | osError
  | otherError
deriving Repr, DecidableEq

/-- Outcome of one `Plist` operation: normal return or a raised
exception. -/
inductive PyExc where
  | plistAlreadyExistsError
  | plistDoesNotExistError
  | plistReadError
  | plistWriteError
  | plistDeleteError
  | unboundLocalError
  | uncaught : ErrKind → PyExc
deriving Repr, DecidableEq

/-- Result of a Python call: a value or a raised exception. -/
inductive PyResult (α : Type) where
  | ok : α → PyResult α
  | exc : PyExc → PyResult α
deriving Repr

/-- One entry emitted to `LOGGER`: message prefix, kind, pathname
segments. -/
inductive LogEntry where
  | info : String → String → List String → LogEntry
  | error : String → String → List String → LogEntry
deriving Repr, DecidableEq

/-- Environment oracle: whether version control is configured
(`settings.GIT_PATH`), and which externally-caused failures strike each
I/O primitive during the call being modelled (`none` = the primitive
succeeds whenever it is structurally possible). -/
structure Env where
  gitConfigured : Bool
  makedirsErr : Option ErrKind
  openErr : Option ErrKind
  readErr : Option ErrKind
  unlinkErr : Option ErrKind
  gitErr : Option ErrKind
deriving Repr

/-- A benign environment: no injected failures, no version control. -/
def Env.quiet : Env :=
  { gitConfigured := false, makedirsErr := none, openErr := none,
    readErr := none, unlinkErr := none, gitErr := none }

/-- Result of a state-changing operation: Python outcome, resulting
repository tree, log entries emitted. -/
structure OpOut (α : Type) where
  result : PyResult α
  fs : Node
  log : List LogEntry

/-- Default manifest skeleton of models.py lines 90-96 (the sections are
inserted in the order of the source's list). -/
def manifestsSkeleton : PDict :=
  [("catalogs", .arr []), ("included_manifests", .arr []),
   ("managed_installs", .arr []), ("managed_uninstalls", .arr []),
   ("managed_updates", .arr []), ("optional_installs", .arr [])]

/-- Default pkgsinfo skeleton of models.py lines 97-104. -/
def pkgsinfoSkeleton : PDict :=
  [("name", .str "ProductName"), ("display_name", .str "Display Name"),
   ("description", .str "Product description"), ("version", .str "1.0"),
   ("catalogs", .arr [.str "development"])]

/-- Namespace-specific default record of models.py lines 89-104; for any
other kind the local variable `plist` is never assigned, hence `none`. -/
def defaultPlist (kind : String) : Option PDict :=
  if kind == "manifests" then some manifestsSkeleton
  else if kind == "pkgsinfo" then some pkgsinfoSkeleton
  else none

/-- The record `new` actually serializes: `if plist_data:` of models.py
line 86 is Python truthiness, so a missing or empty record falls through
to the default skeleton. -/
def effectivePlist (kind : String) : Option PDict → Option PDict
  | some d => if d.isEmpty then defaultPlist kind else some d
  | none => defaultPlist kind

/-- Embedding of `Plist.list` (models.py lines 55-68): walk
`REPO_DIR/kind`, prune `skipdirs`, skip dot-files, return paths relative
to the kind directory. -/
def Plist.list (fs : Node) (kind : String) : List String :=
  match fs.lookup [kind] with
  | some t => t.walk ""
  | none => []

/-- Embedding of `Plist.new` (models.py lines 70-115). -/
def Plist.new (env : Env) (fs : Node) (kind : String) (pathname : List String)
    (user : String) (plist_data : Option PDict) : OpOut Bytes :=
  let filepath := kind :: pathname
  if fs.existsAt filepath then
    ⟨.exc .plistAlreadyExistsError, fs, []⟩
  else
    let parent := filepath.dropLast
    let mkdirEff : Option ErrKind :=
      if fs.existsAt parent then none
      else if fs.mkdirBlocked parent then some .osError
      else env.makedirsErr
    match mkdirEff with
    | some e =>
      -- models.py line 83: except (IOError, OSError)
      if e == .otherError then ⟨.exc (.uncaught e), fs, []⟩
      else ⟨.exc .plistWriteError, fs, [.error "Create failed" kind pathname]⟩
    | none =>
      let fs1 := if fs.existsAt parent then fs else fs.mkdirAll parent
      match effectivePlist kind plist_data with
      | none => ⟨.exc .unboundLocalError, fs1, []⟩
      | some plist =>
        let data := writePlistToString plist
        let openEff : Option ErrKind :=
          if fs1.openWriteOk filepath then env.openErr else some .ioError
        match openEff with
        | some e =>
          -- models.py line 112: except (IOError, OSError)
          if e == .otherError then ⟨.exc (.uncaught e), fs1, []⟩
          else ⟨.exc .plistWriteError, fs1, [.error "Create failed" kind pathname]⟩
        | none =>
          let fs2 := fs1.setFile filepath data
          if (user != "") && env.gitConfigured then
            match env.gitErr with
            | some e =>
              -- the MunkiGit call sits inside the same try block
              if e == .otherError then
                ⟨.exc (.uncaught e), fs2, [.info "Created" kind pathname]⟩
              else
                ⟨.exc .plistWriteError, fs2,
                 [.info "Created" kind pathname, .error "Create failed" kind pathname]⟩
            | none => ⟨.ok data, fs2, [.info "Created" kind pathname]⟩
          else ⟨.ok data, fs2, [.info "Created" kind pathname]⟩

/-- Embedding of `Plist.read` (models.py lines 117-132). -/
def Plist.read (env : Env) (fs : Node) (kind : String) (pathname : List String) :
    PyResult PDict × List LogEntry :=
  let filepath := kind :: pathname
  if !fs.existsAt filepath then
    (.exc .plistDoesNotExistError, [])
  else
    let readEff : Option ErrKind :=
      match fs.lookup filepath with
      | some (.file _) => env.readErr
      | _ => some .ioError   -- opening a directory raises IOError
    match readEff with
    | some e =>
      -- models.py line 127: except (IOError, OSError) comes first
      if e == .otherError then (.exc (.uncaught e), [])
      else (.exc .plistReadError, [.error "Read failed" kind pathname])
    | none =>
      match fs.lookup filepath with
      | some (.file b) =>
        match parsePlist b with
        | some d => (.ok d, [])
        | none => (.ok [], [])   -- models.py line 130: ExpatError swallowed
      | _ => (.ok [], [])

/-- Embedding of `Plist.write` (models.py lines 134-155).  Note the
asymmetry with `new`: the directory-creation handler of models.py line
144 catches only `OSError`. -/
def Plist.write (env : Env) (fs : Node) (data : Bytes) (kind : String)
    (pathname : List String) (user : String) : OpOut Unit :=
  let filepath := kind :: pathname
  let parent := filepath.dropLast
  let mkdirEff : Option ErrKind :=
    if fs.existsAt parent then none
    else if fs.mkdirBlocked parent then some .osError
    else env.makedirsErr
  match mkdirEff with
  | some e =>
    -- models.py line 144: except OSError only
    if e == .osError then ⟨.exc .plistWriteError, fs, [.error "Create failed" kind pathname]⟩
    else ⟨.exc (.uncaught e), fs, []⟩
  | none =>
    let fs1 := if fs.existsAt parent then fs else fs.mkdirAll parent
    let openEff : Option ErrKind :=
      if fs1.openWriteOk filepath then env.openErr else some .ioError
    match openEff with
    | some e =>
      -- models.py line 153: except (IOError, OSError)
      if e == .otherError then ⟨.exc (.uncaught e), fs1, []⟩
      else ⟨.exc .plistWriteError, fs1, [.error "Write failed" kind pathname]⟩
    | none =>
      let fs2 := fs1.setFile filepath data
      if (user != "") && env.gitConfigured then
        match env.gitErr with
        | some e =>
          if e == .otherError then
            ⟨.exc (.uncaught e), fs2, [.info "Wrote" kind pathname]⟩
          else
            ⟨.exc .plistWriteError, fs2,
             [.info "Wrote" kind pathname, .error "Write failed" kind pathname]⟩
        | none => ⟨.ok (), fs2, [.info "Wrote" kind pathname]⟩
      else ⟨.ok (), fs2, [.info "Wrote" kind pathname]⟩

/-- Embedding of `Plist.delete` (models.py lines 157-172). -/
def Plist.delete (env : Env) (fs : Node) (kind : String) (pathname : List String)
    (user : String) : OpOut Unit :=
  let filepath := kind :: pathname
  if !fs.existsAt filepath then
    ⟨.exc .plistDoesNotExistError, fs, []⟩
  else
    let unlinkEff : Option ErrKind :=
      if fs.isFileAt filepath then env.unlinkErr else some .osError
    match unlinkEff with
    | some e =>
      -- models.py line 170: except (IOError, OSError)
      if e == .otherError then ⟨.exc (.uncaught e), fs, []⟩
      else ⟨.exc .plistDeleteError, fs, [.error "Delete failed" kind pathname]⟩
    | none =>
      let fs2 := fs.removeAt filepath
      if (user != "") && env.gitConfigured then
        match env.gitErr with
        | some e =>
          if e == .otherError then
            ⟨.exc (.uncaught e), fs2, [.info "Deleted" kind pathname]⟩
          else
            ⟨.exc .plistDeleteError, fs2,
             [.info "Deleted" kind pathname, .error "Delete failed" kind pathname]⟩
        | none => ⟨.ok (), fs2, [.info "Deleted" kind pathname]⟩
      else ⟨.ok (), fs2, [.info "Deleted" kind pathname]⟩

/-- Rendering of a nonempty relative segment path back to the string the
source returns (segments joined by the path separator). -/
def renderRel : List String → String
  | [] => ""
  | [s] => s
  | s :: t :: rest => s ++ "/" ++ renderRel (t :: rest)

/-- Accumulating join, as performed along the walk. -/
def joinAll : String → List String → String
  | sub, [] => sub
  | sub, s :: rest => joinAll (osJoin sub s) rest

/-! String-level facts about path rendering. -/

theorem validName_spec {s : String} (h : validName s = true) :
    s.data ≠ [] ∧ '/' ∉ s.data := by
  unfold validName at h
  simp only [Bool.and_eq_true, Bool.not_eq_true'] at h
  obtain ⟨h1, h2⟩ := h
  constructor
  · simp_all
  · simp_all

/-- Equality of strings via their character lists. -/
theorem str_data_eq {a b : String} (h : a = b) : a.data = b.data :=
  congrArg String.data h

/-- A string whose data is nonempty is not the empty string. -/
theorem str_ne_empty {a : String} (h : a.data ≠ []) : a ≠ "" := by
  intro he
  exact h (by rw [he])

/-- Splitting a character list at the first separator is unique. -/
theorem slashSplitChars :
    ∀ (as bs xs ys : List Char), '/' ∉ as → '/' ∉ bs →
      as ++ '/' :: xs = bs ++ '/' :: ys → as = bs ∧ xs = ys := by
  intro as
  induction as with
  | nil =>
    intro bs xs ys _ hb h
    cases bs with
    | nil => simpa using h
    | cons b bs' =>
      simp only [List.nil_append, List.cons_append, List.cons.injEq] at h
      exact absurd (h.1 ▸ List.mem_cons_self b bs') hb
  | cons a as' ih =>
    intro bs xs ys ha hb h
    cases bs with
    | nil =>
      simp only [List.nil_append, List.cons_append, List.cons.injEq] at h
      exact absurd (h.1 ▸ List.mem_cons_self a as') ha
    | cons b bs' =>
      simp only [List.cons_append, List.cons.injEq] at h
      obtain ⟨hab, h2⟩ := h
      have ha' : '/' ∉ as' := fun hm => ha (List.mem_cons_of_mem a hm)
      have hb' : '/' ∉ bs' := fun hm => hb (List.mem_cons_of_mem b hm)
      obtain ⟨h3, h4⟩ := ih bs' xs ys ha' hb' h2
      exact ⟨by rw [hab, h3], h4⟩

/-- Splitting a slash-joined string at the first separator is unique. -/
theorem slashSplit (a b x y : String) (ha : '/' ∉ a.data) (hb : '/' ∉ b.data)
    (h : a ++ "/" ++ x = b ++ "/" ++ y) : a = b ∧ x = y := by
  have hd := str_data_eq h
  rw [String.data_append, String.data_append, String.data_append,
    String.data_append] at hd
  have hs : ("/" : String).data = ['/'] := rfl
  rw [hs, List.append_assoc, List.append_assoc, List.singleton_append,
    List.singleton_append] at hd
  obtain ⟨h1, h2⟩ := slashSplitChars _ _ _ _ ha hb hd
  exact ⟨String.ext h1, String.ext h2⟩

/-- A slash-free string is never a slash-join. -/
theorem noSlash_ne (a b y : String) (ha : '/' ∉ a.data) :
    a ≠ b ++ "/" ++ y := by
  intro h
  have hd := str_data_eq h
  rw [String.data_append, String.data_append] at hd
  apply ha
  rw [hd]
  have hs : ("/" : String).data = ['/'] := rfl
  rw [hs]
  simp

theorem renderRel_cons (s : String) (p : List String) (hp : p ≠ []) :
    renderRel (s :: p) = s ++ "/" ++ renderRel p := by
  cases p with
  | nil => exact absurd rfl hp
  | cons t rest => rfl

/-- Rendering of a nonempty valid path is a nonempty string. -/
theorem renderRel_data_ne_nil (p : List String) (hp : p ≠ [])
    (hv : ∀ s ∈ p, validName s = true) : (renderRel p).data ≠ [] := by
  cases p with
  | nil => exact absurd rfl hp
  | cons s rest =>
    cases rest with
    | nil =>
      exact (validName_spec (hv s (List.mem_cons_self s []))).1
    | cons t r =>
      rw [renderRel_cons s (t :: r) (by simp)]
      rw [String.data_append, String.data_append]
      have hs : ("/" : String).data = ['/'] := rfl
      rw [hs]
      simp

/-- On valid segment paths, rendering is injective. -/
theorem renderRel_inj :
    ∀ (p q : List String), (∀ s ∈ p, validName s = true) →
      (∀ s ∈ q, validName s = true) → renderRel p = renderRel q → p = q := by
  intro p
  induction p with
  | nil =>
    intro q _ hq h
    cases q with
    | nil => rfl
    | cons b q' =>
      exfalso
      exact renderRel_data_ne_nil (b :: q') (by simp) hq (str_data_eq h.symm)
  | cons a p' ih =>
    intro q hp hq h
    have hva := validName_spec (hp a (List.mem_cons_self a p'))
    cases q with
    | nil =>
      exfalso
      exact renderRel_data_ne_nil (a :: p') (by simp) hp (str_data_eq h)
    | cons b q' =>
      have hvb := validName_spec (hq b (List.mem_cons_self b q'))
      have hp' : ∀ s ∈ p', validName s = true :=
        fun s hs => hp s (List.mem_cons_of_mem a hs)
      have hq' : ∀ s ∈ q', validName s = true :=
        fun s hs => hq s (List.mem_cons_of_mem b hs)
      cases p' with
      | nil =>
        cases q' with
        | nil => rw [renderRel, renderRel] at h; rw [h]
        | cons c q'' =>
          exfalso
          rw [renderRel, renderRel_cons b (c :: q'') (by simp)] at h
          exact noSlash_ne a b (renderRel (c :: q'')) hva.2 h
      | cons c p'' =>
        cases q' with
        | nil =>
          exfalso
          rw [renderRel_cons a (c :: p'') (by simp), renderRel] at h
          exact noSlash_ne b a (renderRel (c :: p'')) hvb.2 h.symm
        | cons d q'' =>
          rw [renderRel_cons a (c :: p'') (by simp),
            renderRel_cons b (d :: q'') (by simp)] at h
          obtain ⟨h1, h2⟩ := slashSplit _ _ _ _ hva.2 hvb.2 h
          rw [h1, ih (d :: q'') hp' hq' h2]

/-- The accumulated join of the walk agrees with `renderRel`. -/
theorem joinAll_eq :
    ∀ (p : List String) (sub : String), (∀ s ∈ p, validName s = true) →
      joinAll sub p =
        if sub = "" then renderRel p
        else if p = [] then sub else sub ++ "/" ++ renderRel p := by
  intro p
  induction p with
  | nil =>
    intro sub _
    by_cases hsub : sub = "" <;> simp [joinAll, hsub, renderRel]
  | cons s rest ih =>
    intro sub hv
    have hvs := validName_spec (hv s (List.mem_cons_self s rest))
    have hv' : ∀ x ∈ rest, validName x = true :=
      fun x hx => hv x (List.mem_cons_of_mem s hx)
    rw [joinAll, ih (osJoin sub s) hv']
    by_cases hsub : sub = ""
    · have hjoin : osJoin sub s = s := by rw [hsub]; rfl
      rw [hjoin, if_neg (str_ne_empty hvs.1), if_pos hsub]
      cases rest with
      | nil => simp [renderRel]
      | cons t r => rw [renderRel_cons s (t :: r) (by simp), if_neg (by simp)]
    · have hjoin : osJoin sub s = sub ++ "/" ++ s := by
        unfold osJoin; rw [if_neg hsub]
      have hne : osJoin sub s ≠ "" := by
        rw [hjoin]
        apply str_ne_empty
        rw [String.data_append, String.data_append]
        have hs : ("/" : String).data = ['/'] := rfl
        rw [hs]
        simp
      rw [if_neg hne, if_neg hsub, if_neg (by simp : s :: rest ≠ [])]
      cases rest with
      | nil => simp [renderRel, hjoin]
      | cons t r =>
        rw [if_neg (by simp : (t : String) :: r ≠ []),
          renderRel_cons s (t :: r) (by simp), hjoin]
        simp [String.append_assoc]

/-! Directory-entry lemmas. -/

theorem childNamed_setChild_self (s : String) (t : Node) :
    ∀ cs, childNamed s (setChild s t cs) = some t := by
  intro cs
  induction cs with
  | nil => simp [setChild, childNamed]
  | cons c cs ih =>
    obtain ⟨n, u⟩ := c
    by_cases h : (n == s) = true
    · simp [setChild, childNamed, h]
    · simp only [Bool.not_eq_true] at h
      simp [setChild, childNamed, h, ih]

theorem childNamed_replaceChild_self (s : String) (t u : Node) :
    ∀ cs, childNamed s cs = some u →
      childNamed s (replaceChild s t cs) = some t := by
  intro cs
  induction cs with
  | nil => intro h; simp [childNamed] at h
  | cons c cs ih =>
    obtain ⟨n, v⟩ := c
    intro h
    by_cases hn : (n == s) = true
    · simp [replaceChild, childNamed, hn]
    · simp only [Bool.not_eq_true] at hn
      simp only [childNamed, hn, if_false] at h
      simp [replaceChild, childNamed, hn, ih h]

theorem childNamed_replaceChild_ne (a s : String) (t : Node) (h : a ≠ s) :
    ∀ cs, childNamed a (replaceChild s t cs) = childNamed a cs := by
  intro cs
  induction cs with
  | nil => simp [replaceChild]
  | cons c cs ih =>
    obtain ⟨n, v⟩ := c
    by_cases hn : (n == s) = true
    · have hna : (n == a) = false := by
        rw [beq_eq_false_iff_ne]
        intro hna
        exact h (hna.symm.trans (eq_of_beq hn))
      simp [replaceChild, childNamed, hn, hna]
    · simp only [Bool.not_eq_true] at hn
      by_cases hna : (n == a) = true
      · simp [replaceChild, childNamed, hn, hna]
      · simp only [Bool.not_eq_true] at hna
        simp [replaceChild, childNamed, hn, hna, ih]

theorem childNamed_dropChild_ne (a s : String) (h : a ≠ s) :
    ∀ cs, childNamed a (dropChild s cs) = childNamed a cs := by
  intro cs
  induction cs with
  | nil => simp [dropChild]
  | cons c cs ih =>
    obtain ⟨n, v⟩ := c
    by_cases hn : (n == s) = true
    · have hna : (n == a) = false := by
        rw [beq_eq_false_iff_ne]
        intro hna
        exact h (hna.symm.trans (eq_of_beq hn))
      simp [dropChild, childNamed, hn, hna]
    · simp only [Bool.not_eq_true] at hn
      by_cases hna : (n == a) = true
      · simp [dropChild, childNamed, hn, hna]
      · simp only [Bool.not_eq_true] at hna
        simp [dropChild, childNamed, hn, hna, ih]

theorem childNamed_eq_none_of_any_false (s : String) :
    ∀ cs, cs.any (fun c => c.1 == s) = false → childNamed s cs = none := by
  intro cs
  induction cs with
  | nil => intro _; rfl
  | cons c cs ih =>
    obtain ⟨n, v⟩ := c
    intro h
    simp only [List.any_cons, Bool.or_eq_false_iff] at h
    simp [childNamed, h.1, ih h.2]

theorem childNamed_dropChild_self (s : String) :
    ∀ cs, nodupNames cs = true → childNamed s (dropChild s cs) = none := by
  intro cs
  induction cs with
  | nil => intro _; rfl
  | cons c cs ih =>
    obtain ⟨n, v⟩ := c
    intro h
    simp only [nodupNames, Bool.and_eq_true, Bool.not_eq_true'] at h
    by_cases hn : (n == s) = true
    · have : cs.any (fun c => c.1 == s) = false := by
        rw [← eq_of_beq hn]
        exact h.1
      simp [dropChild, hn, childNamed_eq_none_of_any_false s cs this]
    · simp only [Bool.not_eq_true] at hn
      simp [dropChild, childNamed, hn, ih h.2]

theorem childNamed_append (a : String) :
    ∀ cs ds, childNamed a (cs ++ ds) =
      match childNamed a cs with
      | some t => some t
      | none => childNamed a ds := by
  intro cs ds
  induction cs with
  | nil => simp [childNamed]
  | cons c cs ih =>
    obtain ⟨n, v⟩ := c
    by_cases hn : (n == a) = true
    · simp [childNamed, hn]
    · simp only [Bool.not_eq_true] at hn
      simp [childNamed, hn, ih]

theorem childNamed_of_mem (n : String) (t : Node) :
    ∀ cs, nodupNames cs = true → (n, t) ∈ cs → childNamed n cs = some t := by
  intro cs
  induction cs with
  | nil => intro _ h; cases h
  | cons c cs ih =>
    obtain ⟨m, u⟩ := c
    intro hd hm
    simp only [nodupNames, Bool.and_eq_true, Bool.not_eq_true'] at hd
    rcases List.mem_cons.1 hm with h | h
    · obtain ⟨h1, h2⟩ := Prod.mk.injEq n t m u ▸ h
      subst h1
      subst h2
      simp [childNamed]
    · by_cases hn : (m == n) = true
      · exfalso
        have : cs.any (fun c => c.1 == m) = true :=
          List.any_eq_true.2 ⟨(n, t), h, by simp [eq_of_beq hn]⟩
        rw [hd.1] at this
        cases this
      · simp only [Bool.not_eq_true] at hn
        simp [childNamed, hn, ih hd.2 h]

/-! Well-formedness extraction and preservation. -/

theorem wf_dir_iff (cs : List (String × Node)) :
    Node.wf (.dir cs) = (nodupNames cs && wfChildren cs) := by
  simp [Node.wf]

theorem wfChildren_cons_iff (n : String) (t : Node) (cs : List (String × Node)) :
    wfChildren ((n, t) :: cs) = (validName n && Node.wf t && wfChildren cs) := by
  simp [wfChildren]

theorem wf_of_childNamed (s : String) (t : Node) :
    ∀ cs, wfChildren cs = true → childNamed s cs = some t → Node.wf t = true := by
  intro cs
  induction cs with
  | nil => intro _ h; cases h
  | cons c cs ih =>
    obtain ⟨n, u⟩ := c
    intro hwf h
    rw [wfChildren_cons_iff] at hwf
    simp only [Bool.and_eq_true] at hwf
    by_cases hn : (n == s) = true
    · simp only [childNamed, hn, if_true, Option.some.injEq] at h
      exact h ▸ hwf.1.2
    · simp only [Bool.not_eq_true] at hn
      simp only [childNamed, hn, if_false] at h
      exact ih hwf.2 h

theorem validName_wf_of_mem (n : String) (t : Node) :
    ∀ cs, wfChildren cs = true → (n, t) ∈ cs →
      validName n = true ∧ Node.wf t = true := by
  intro cs
  induction cs with
  | nil => intro _ h; cases h
  | cons c cs ih =>
    obtain ⟨m, u⟩ := c
    intro hwf hm
    rw [wfChildren_cons_iff] at hwf
    simp only [Bool.and_eq_true] at hwf
    rcases List.mem_cons.1 hm with h | h
    · obtain ⟨h1, h2⟩ := Prod.mk.injEq n t m u ▸ h
      subst h1
      subst h2
      exact ⟨hwf.1.1, hwf.1.2⟩
    · exact ih hwf.2 h

theorem any_dropChild (s : String) (f : String × Node → Bool) :
    ∀ cs, (dropChild s cs).any f = true → cs.any f = true := by
  intro cs
  induction cs with
  | nil => intro h; simp [dropChild] at h
  | cons c cs ih =>
    obtain ⟨n, v⟩ := c
    intro h
    by_cases hn : (n == s) = true
    · simp only [dropChild, hn, if_true] at h
      simp [h]
    · simp only [Bool.not_eq_true] at hn
      simp only [dropChild, hn, Bool.false_eq_true, if_false, List.any_cons,
        Bool.or_eq_true] at h
      rcases h with h | h
      · simp [h]
      · simp [ih h]

theorem nodupNames_dropChild (s : String) :
    ∀ cs, nodupNames cs = true → nodupNames (dropChild s cs) = true := by
  intro cs
  induction cs with
  | nil => intro _; rfl
  | cons c cs ih =>
    obtain ⟨n, v⟩ := c
    intro h
    simp only [nodupNames, Bool.and_eq_true, Bool.not_eq_true'] at h
    by_cases hn : (n == s) = true
    · simpa [dropChild, hn] using h.2
    · simp only [Bool.not_eq_true] at hn
      have hany : (dropChild s cs).any (fun c => c.1 == n) = false := by
        cases hcs : (dropChild s cs).any (fun c => c.1 == n) with
        | false => rfl
        | true => rw [any_dropChild s _ cs hcs] at h; exact h.1.symm ▸ h.1
      simp [dropChild, hn, nodupNames, hany, ih h.2]

theorem wfChildren_dropChild (s : String) :
    ∀ cs, wfChildren cs = true → wfChildren (dropChild s cs) = true := by
  intro cs
  induction cs with
  | nil => intro _; rfl
  | cons c cs ih =>
    obtain ⟨n, v⟩ := c
    intro h
    rw [wfChildren_cons_iff] at h
    simp only [Bool.and_eq_true] at h
    by_cases hn : (n == s) = true
    · simpa [dropChild, hn] using h.2
    · simp only [Bool.not_eq_true] at hn
      simp [dropChild, hn, wfChildren_cons_iff, h.1.1, h.1.2, ih h.2]

theorem any_replaceChild (s : String) (u : Node) (f : String → Bool) :
    ∀ cs, (replaceChild s u cs).any (fun c => f c.1) = cs.any (fun c => f c.1) := by
  intro cs
  induction cs with
  | nil => rfl
  | cons c cs ih =>
    obtain ⟨n, v⟩ := c
    by_cases hn : (n == s) = true
    · simp [replaceChild, hn]
    · simp only [Bool.not_eq_true] at hn
      simp [replaceChild, hn, ih]

theorem nodupNames_replaceChild (s : String) (u : Node) :
    ∀ cs, nodupNames cs = true → nodupNames (replaceChild s u cs) = true := by
  intro cs
  induction cs with
  | nil => intro _; rfl
  | cons c cs ih =>
    obtain ⟨n, v⟩ := c
    intro h
    simp only [nodupNames, Bool.and_eq_true, Bool.not_eq_true'] at h
    by_cases hn : (n == s) = true
    · simp [replaceChild, hn, nodupNames, h.1, h.2]
    · simp only [Bool.not_eq_true] at hn
      have := any_replaceChild s u (fun m => m == n) cs
      simp [replaceChild, hn, nodupNames, this, h.1, ih h.2]

theorem wfChildren_replaceChild (s : String) (u : Node) :
    ∀ cs, wfChildren cs = true → Node.wf u = true →
      wfChildren (replaceChild s u cs) = true := by
  intro cs
  induction cs with
  | nil => intro _ _; rfl
  | cons c cs ih =>
    obtain ⟨n, v⟩ := c
    intro h hu
    rw [wfChildren_cons_iff] at h
    simp only [Bool.and_eq_true] at h
    by_cases hn : (n == s) = true
    · simp [replaceChild, hn, wfChildren_cons_iff, h.1.1, hu, h.2]
    · simp only [Bool.not_eq_true] at hn
      simp [replaceChild, hn, wfChildren_cons_iff, h.1.1, h.1.2, ih h.2 hu]

/-! Path-resolution lemmas for the tree operations. -/

theorem lookup_dir_cons (cs : List (String × Node)) (s : String) (rest : List String) :
    Node.lookup (.dir cs) (s :: rest) =
      match childNamed s cs with
      | some t => t.lookup rest
      | none => none := rfl

theorem isFileAt_dir_cons (cs : List (String × Node)) (a : String) (p : List String) :
    (Node.dir cs).isFileAt (a :: p) =
      match childNamed a cs with
      | some u => u.isFileAt p
      | none => false := by
  cases h : childNamed a cs <;> simp [Node.isFileAt, lookup_dir_cons, h]

theorem isDirAt_dir_cons (cs : List (String × Node)) (a : String) (p : List String) :
    (Node.dir cs).isDirAt (a :: p) =
      match childNamed a cs with
      | some u => u.isDirAt p
      | none => false := by
  cases h : childNamed a cs <;> simp [Node.isDirAt, lookup_dir_cons, h]

/-- After a structurally possible `open(p, 'w')`-write, the file is found
at `p` with exactly the written content. -/
theorem lookup_setFile (p : List String) :
    ∀ (t : Node) (d : Bytes), t.isDirAt p.dropLast = true → p ≠ [] →
      (t.setFile p d).lookup p = some (.file d) := by
  induction p with
  | nil => intro t d _ hp; exact absurd rfl hp
  | cons s rest ih =>
    intro t d hdir _
    cases rest with
    | nil =>
      cases t with
      | file c => simp [Node.isDirAt, Node.lookup] at hdir
      | dir cs =>
        simp only [Node.setFile, lookup_dir_cons,
          childNamed_setChild_self s (Node.file d) cs]
        rfl
    | cons r rest' =>
      have hdl : (s :: r :: rest').dropLast = s :: (r :: rest').dropLast := rfl
      rw [hdl] at hdir
      cases t with
      | file c => simp [Node.isDirAt, Node.lookup] at hdir
      | dir cs =>
        rw [isDirAt_dir_cons] at hdir
        cases hc : childNamed s cs with
        | none => rw [hc] at hdir; cases hdir
        | some t' =>
          rw [hc] at hdir
          simp only [Node.setFile, hc, lookup_dir_cons,
            childNamed_replaceChild_self s (t'.setFile (r :: rest') d) t' cs hc]
          exact ih t' d hdir (by simp)

/-- After a successful `os.unlink p` on a well-formed tree, nothing
resolves at `p` any more. -/
theorem lookup_removeAt (p : List String) :
    ∀ t : Node, Node.wf t = true → t.isFileAt p = true → p ≠ [] →
      (t.removeAt p).lookup p = none := by
  induction p with
  | nil => intro t _ _ hp; exact absurd rfl hp
  | cons s rest ih =>
    intro t hwf hfile _
    cases t with
    | file c => simp [Node.isFileAt, Node.lookup] at hfile
    | dir cs =>
      rw [wf_dir_iff] at hwf
      simp only [Bool.and_eq_true] at hwf
      rw [isFileAt_dir_cons] at hfile
      cases rest with
      | nil =>
        simp only [Node.removeAt, lookup_dir_cons,
          childNamed_dropChild_self s cs hwf.1]
      | cons r rest' =>
        cases hc : childNamed s cs with
        | none => rw [hc] at hfile; cases hfile
        | some t' =>
          rw [hc] at hfile
          have hwt' := wf_of_childNamed s t' cs hwf.2 hc
          simp only [Node.removeAt, hc, lookup_dir_cons,
            childNamed_replaceChild_self s (t'.removeAt (r :: rest')) t' cs hc]
          exact ih t' hwt' hfile (by simp)

/-- Removing an entry preserves filesystem well-formedness. -/
theorem wf_removeAt (p : List String) :
    ∀ t : Node, Node.wf t = true → Node.wf (t.removeAt p) = true := by
  induction p with
  | nil => intro t h; cases t <;> exact h
  | cons s rest ih =>
    intro t hwf
    cases t with
    | file c => exact hwf
    | dir cs =>
      rw [wf_dir_iff] at hwf
      simp only [Bool.and_eq_true] at hwf
      cases rest with
      | nil =>
        simp only [Node.removeAt, wf_dir_iff, Bool.and_eq_true]
        exact ⟨nodupNames_dropChild s cs hwf.1, wfChildren_dropChild s cs hwf.2⟩
      | cons r rest' =>
        cases hc : childNamed s cs with
        | none =>
          simp only [Node.removeAt, hc, wf_dir_iff, Bool.and_eq_true]
          exact ⟨hwf.1, hwf.2⟩
        | some t' =>
          have hwt' := wf_of_childNamed s t' cs hwf.2 hc
          simp only [Node.removeAt, hc, wf_dir_iff, Bool.and_eq_true]
          exact ⟨nodupNames_replaceChild s _ cs hwf.1,
            wfChildren_replaceChild s _ cs hwf.2 (ih t' hwt')⟩

/-- `os.makedirs` creates directories only: the set of regular files is
untouched. -/
theorem isFileAt_mkdirAll (q : List String) :
    ∀ (t : Node) (p : List String), (t.mkdirAll q).isFileAt p = t.isFileAt p := by
  induction q with
  | nil => intro t p; cases t <;> rfl
  | cons s q' ih =>
    intro t p
    cases t with
    | file c => rfl
    | dir cs =>
      cases hc : childNamed s cs with
      | some t' =>
        cases p with
        | nil => simp [Node.mkdirAll, hc, Node.isFileAt, Node.lookup]
        | cons a p' =>
          by_cases has : a = s
          · subst has
            simp only [Node.mkdirAll, hc, isFileAt_dir_cons,
              childNamed_replaceChild_self a (t'.mkdirAll q') t' cs hc]
            rw [ih t' p']
          · simp only [Node.mkdirAll, hc, isFileAt_dir_cons,
              childNamed_replaceChild_ne a s (t'.mkdirAll q') has cs]
      | none =>
        cases p with
        | nil => simp [Node.mkdirAll, hc, Node.isFileAt, Node.lookup]
        | cons a p' =>
          by_cases has : a = s
          · subst has
            have hax : childNamed a (cs ++ [(a, (Node.dir []).mkdirAll q')]) =
                some ((Node.dir []).mkdirAll q') := by
              rw [childNamed_append, hc]
              simp [childNamed]
            simp only [Node.mkdirAll, hc, isFileAt_dir_cons, hax]
            rw [ih (Node.dir []) p']
            cases p' <;> simp [Node.isFileAt, Node.lookup, childNamed]
          · have hax : childNamed a (cs ++ [(s, (Node.dir []).mkdirAll q')]) =
                childNamed a cs := by
              rw [childNamed_append]
              cases hca : childNamed a cs with
              | some u => rfl
              | none =>
                simp [childNamed,
                  show (s == a) = false from
                    beq_eq_false_iff_ne.2 (fun hsa => has hsa.symm)]
            simp only [Node.mkdirAll, hc, isFileAt_dir_cons, hax]

/-! Soundness of the `os.walk` enumeration. -/

theorem mem_fileNames (n : String) :
    ∀ cs, n ∈ fileNames cs → ∃ b, (n, Node.file b) ∈ cs := by
  intro cs
  induction cs with
  | nil => intro h; cases h
  | cons c cs ih =>
    obtain ⟨m, u⟩ := c
    cases u with
    | file b =>
      intro h
      simp only [fileNames] at h
      rcases List.mem_cons.1 h with h | h
      · exact ⟨b, by rw [h]; exact List.mem_cons_self _ _⟩
      · obtain ⟨b', hb'⟩ := ih h
        exact ⟨b', List.mem_cons_of_mem _ hb'⟩
    | dir cs' =>
      intro h
      simp only [fileNames] at h
      obtain ⟨b', hb'⟩ := ih h
      exact ⟨b', List.mem_cons_of_mem _ hb'⟩

theorem mem_hereFiles (x sub : String) (cs : List (String × Node))
    (h : x ∈ hereFiles sub cs) :
    ∃ n b, (n, Node.file b) ∈ cs ∧ x = osJoin sub n ∧
      startsWithDot n = false := by
  unfold hereFiles at h
  rw [List.mem_map] at h
  obtain ⟨n, hn, hx⟩ := h
  rw [List.mem_filter] at hn
  obtain ⟨hmem, hdot⟩ := hn
  obtain ⟨b, hb⟩ := mem_fileNames n cs hmem
  exact ⟨n, b, hb, hx.symm, by simpa using hdot⟩


theorem mem_walkChildren (x sub : String) :
    ∀ cs, x ∈ walkChildren sub cs →
      ∃ n cs', (n, Node.dir cs') ∈ cs ∧ skipdirs.contains n = false ∧
        x ∈ Node.walk (osJoin sub n) (Node.dir cs') := by
  intro cs
  induction cs with
  | nil => intro h; simp [walkChildren] at h
  | cons c cs ih =>
    obtain ⟨m, u⟩ := c
    cases u with
    | file b =>
      intro h
      simp only [walkChildren] at h
      obtain ⟨n, cs', h1, h2, h3⟩ := ih h
      exact ⟨n, cs', List.mem_cons_of_mem _ h1, h2, h3⟩
    | dir cs0 =>
      intro h
      simp only [walkChildren] at h
      rcases List.mem_append.1 h with h | h
      · by_cases hskip : skipdirs.contains m = true
        · rw [if_pos hskip] at h
          cases h
        · rw [if_neg hskip] at h
          simp only [Bool.not_eq_true] at hskip
          exact ⟨m, cs0, List.mem_cons_self _ _, hskip, h⟩
      · obtain ⟨n, cs', h1, h2, h3⟩ := ih h
        exact ⟨n, cs', List.mem_cons_of_mem _ h1, h2, h3⟩

/-- Everything the walk of a directory yields is the join of a valid
segment path that resolves to a regular file, whose final segment is not
dot-prefixed and whose directory segments avoid `skipdirs`. -/
theorem walkDir_sound (cs : List (String × Node)) (sub x : String)
    (hwf : Node.wf (.dir cs) = true) (hx : x ∈ Node.walk sub (.dir cs)) :
    ∃ q name b, x = joinAll sub (q ++ [name]) ∧
      (∀ s ∈ q ++ [name], validName s = true) ∧
      (Node.dir cs).lookup (q ++ [name]) = some (.file b) ∧
      startsWithDot name = false ∧
      (∀ d ∈ q, skipdirs.contains d = false) := by
  rw [wf_dir_iff] at hwf
  simp only [Bool.and_eq_true] at hwf
  simp only [Node.walk] at hx
  rcases List.mem_append.1 hx with h | h
  · obtain ⟨n, b, hmem, hxeq, hdot⟩ := mem_hereFiles x sub cs h
    have hvn := (validName_wf_of_mem n (Node.file b) cs hwf.2 hmem).1
    have hcn := childNamed_of_mem n (Node.file b) cs hwf.1 hmem
    refine ⟨[], n, b, ?_, ?_, ?_, hdot, ?_⟩
    · simpa [joinAll] using hxeq
    · intro s hs
      simp only [List.nil_append, List.mem_singleton] at hs
      exact hs ▸ hvn
    · simp [lookup_dir_cons, hcn, Node.lookup]
    · intro d hd
      cases hd
  · obtain ⟨n, cs0, hmem, hskip, hx'⟩ := mem_walkChildren x sub cs h
    have hv := validName_wf_of_mem n (Node.dir cs0) cs hwf.2 hmem
    have hcn := childNamed_of_mem n (Node.dir cs0) cs hwf.1 hmem
    obtain ⟨q, name, b, h1, h2, h3, h4, h5⟩ :=
      walkDir_sound cs0 (osJoin sub n) x hv.2 hx'
    refine ⟨n :: q, name, b, ?_, ?_, ?_, h4, ?_⟩
    · simpa [joinAll] using h1
    · intro s hs
      rcases List.mem_cons.1 hs with hs | hs
      · exact hs ▸ hv.1
      · exact h2 s hs
    · simpa [lookup_dir_cons, hcn] using h3
    · intro d hd
      rcases List.mem_cons.1 hd with hd | hd
      · exact hd ▸ hskip
      · exact h5 d hd
termination_by sizeOf cs
decreasing_by
  have hlt := List.sizeOf_lt_of_mem hmem
  simp only [Prod.mk.sizeOf_spec, Node.dir.sizeOf_spec] at hlt
  omega

/-! Inversion lemmas: what a successful operation run implies. -/

theorem ioError_beq_otherError : (ErrKind.ioError == ErrKind.otherError) = false := rfl

theorem osError_beq_otherError : (ErrKind.osError == ErrKind.otherError) = false := rfl

/-- A successful `Plist.write` went through `open(filepath, 'w')` on a
tree where that was structurally possible, and its resulting tree is that
tree with the file set. -/
theorem write_ok_fs (env : Env) (fs : Node) (data : Bytes) (kind : String)
    (pathname : List String) (user : String)
    (h : (Plist.write env fs data kind pathname user).result = .ok ()) :
    ∃ fs1 : Node, fs1.openWriteOk (kind :: pathname) = true ∧
      (Plist.write env fs data kind pathname user).fs =
        fs1.setFile (kind :: pathname) data := by
  by_cases hpar : fs.existsAt ((kind :: pathname).dropLast) = true
  · by_cases hopen : fs.openWriteOk (kind :: pathname) = true
    · cases hoe : env.openErr with
      | some e =>
        exfalso
        revert h
        simp [Plist.write, hpar, hopen, hoe]
        split <;> simp
      | none =>
        refine ⟨fs, hopen, ?_⟩
        by_cases hgit : ((user != "") && env.gitConfigured) = true
        · cases hge : env.gitErr with
          | some e =>
            exfalso
            revert h
            simp [Plist.write, hpar, hopen, hoe, hgit, hge]
            split <;> simp
          | none => simp [Plist.write, hpar, hopen, hoe, hgit, hge]
        · simp only [Bool.not_eq_true] at hgit
          simp [Plist.write, hpar, hopen, hoe, hgit]
    · simp only [Bool.not_eq_true] at hopen
      exfalso
      revert h
      simp [Plist.write, hpar, hopen, ioError_beq_otherError]
  · simp only [Bool.not_eq_true] at hpar
    by_cases hblk : fs.mkdirBlocked ((kind :: pathname).dropLast) = true
    · exfalso
      revert h
      simp [Plist.write, hpar, hblk, osError_beq_otherError]
    · simp only [Bool.not_eq_true] at hblk
      cases hmk : env.makedirsErr with
      | some e =>
        exfalso
        revert h
        simp [Plist.write, hpar, hblk, hmk]
        split <;> simp
      | none =>
        by_cases hopen : (fs.mkdirAll ((kind :: pathname).dropLast)).openWriteOk
            (kind :: pathname) = true
        · cases hoe : env.openErr with
          | some e =>
            exfalso
            revert h
            simp [Plist.write, hpar, hblk, hmk, hopen, hoe]
            split <;> simp
          | none =>
            refine ⟨fs.mkdirAll ((kind :: pathname).dropLast), hopen, ?_⟩
            by_cases hgit : ((user != "") && env.gitConfigured) = true
            · cases hge : env.gitErr with
              | some e =>
                exfalso
                revert h
                simp [Plist.write, hpar, hblk, hmk, hopen, hoe, hgit, hge]
                split <;> simp
              | none => simp [Plist.write, hpar, hblk, hmk, hopen, hoe, hgit, hge]
            · simp only [Bool.not_eq_true] at hgit
              simp [Plist.write, hpar, hblk, hmk, hopen, hoe, hgit]
        · simp only [Bool.not_eq_true] at hopen
          exfalso
          revert h
          simp [Plist.write, hpar, hblk, hmk, hopen, ioError_beq_otherError]

/-- A successful `Plist.delete` targeted a regular file and its
resulting tree is the original with that entry removed. -/
theorem delete_ok_inv (env : Env) (fs : Node) (kind : String)
    (pathname : List String) (user : String)
    (h : (Plist.delete env fs kind pathname user).result = .ok ()) :
    fs.isFileAt (kind :: pathname) = true ∧
    (Plist.delete env fs kind pathname user).fs =
      fs.removeAt (kind :: pathname) := by
  by_cases hex : fs.existsAt (kind :: pathname) = true
  · by_cases hfile : fs.isFileAt (kind :: pathname) = true
    · cases hue : env.unlinkErr with
      | some e =>
        exfalso
        revert h
        simp [Plist.delete, hex, hfile, hue]
        split <;> simp
      | none =>
        refine ⟨hfile, ?_⟩
        by_cases hgit : ((user != "") && env.gitConfigured) = true
        · cases hge : env.gitErr with
          | some e =>
            exfalso
            revert h
            simp [Plist.delete, hex, hfile, hue, hgit, hge]
            split <;> simp
          | none => simp [Plist.delete, hex, hfile, hue, hgit, hge]
        · simp only [Bool.not_eq_true] at hgit
          simp [Plist.delete, hex, hfile, hue, hgit]
    · simp only [Bool.not_eq_true] at hfile
      exfalso
      revert h
      simp [Plist.delete, hex, hfile, osError_beq_otherError]
  · simp only [Bool.not_eq_true] at hex
    exfalso
    revert h
    simp [Plist.delete, hex]

/-- A successful `Plist.new` serialized exactly the effective record. -/
theorem new_ok_inv (env : Env) (fs : Node) (kind : String)
    (pathname : List String) (user : String) (plist_data : Option PDict)
    (b : Bytes)
    (h : (Plist.new env fs kind pathname user plist_data).result = .ok b) :
    ∃ pl, effectivePlist kind plist_data = some pl ∧
      b = writePlistToString pl := by
  by_cases hex : fs.existsAt (kind :: pathname) = true
  · exfalso
    revert h
    simp [Plist.new, hex]
  · simp only [Bool.not_eq_true] at hex
    by_cases hpar : fs.existsAt ((kind :: pathname).dropLast) = true
    · cases heff : effectivePlist kind plist_data with
      | none =>
        exfalso
        revert h
        simp [Plist.new, hex, hpar, heff]
      | some pl =>
        refine ⟨pl, rfl, ?_⟩
        by_cases hopen : fs.openWriteOk (kind :: pathname) = true
        · cases hoe : env.openErr with
          | some e =>
            exfalso
            revert h
            simp [Plist.new, hex, hpar, heff, hopen, hoe]
            split <;> simp
          | none =>
            by_cases hgit : ((user != "") && env.gitConfigured) = true
            · cases hge : env.gitErr with
              | some e =>
                exfalso
                revert h
                simp [Plist.new, hex, hpar, heff, hopen, hoe, hgit, hge]
                split <;> simp
              | none =>
                revert h
                simp [Plist.new, hex, hpar, heff, hopen, hoe, hgit, hge]
                intro h
                exact h.symm
            · simp only [Bool.not_eq_true] at hgit
              revert h
              simp [Plist.new, hex, hpar, heff, hopen, hoe, hgit]
              intro h
              exact h.symm
        · simp only [Bool.not_eq_true] at hopen
          exfalso
          revert h
          simp [Plist.new, hex, hpar, heff, hopen, ioError_beq_otherError]
    · simp only [Bool.not_eq_true] at hpar
      by_cases hblk : fs.mkdirBlocked ((kind :: pathname).dropLast) = true
      · exfalso
        revert h
        simp [Plist.new, hex, hpar, hblk, osError_beq_otherError]
      · simp only [Bool.not_eq_true] at hblk
        cases hmk : env.makedirsErr with
        | some e =>
          exfalso
          revert h
          simp [Plist.new, hex, hpar, hblk, hmk]
          split <;> simp
        | none =>
          cases heff : effectivePlist kind plist_data with
          | none =>
            exfalso
            revert h
            simp [Plist.new, hex, hpar, hblk, hmk, heff]
          | some pl =>
            refine ⟨pl, rfl, ?_⟩
            by_cases hopen : (fs.mkdirAll ((kind :: pathname).dropLast)).openWriteOk
                (kind :: pathname) = true
            · cases hoe : env.openErr with
              | some e =>
                exfalso
                revert h
                simp [Plist.new, hex, hpar, hblk, hmk, heff, hopen, hoe]
                split <;> simp
              | none =>
                by_cases hgit : ((user != "") && env.gitConfigured) = true
                · cases hge : env.gitErr with
                  | some e =>
                    exfalso
                    revert h
                    simp [Plist.new, hex, hpar, hblk, hmk, heff, hopen, hoe, hgit, hge]
                    split <;> simp
                  | none =>
                    revert h
                    simp [Plist.new, hex, hpar, hblk, hmk, heff, hopen, hoe, hgit, hge]
                    intro h
                    exact h.symm
                · simp only [Bool.not_eq_true] at hgit
                  revert h
                  simp [Plist.new, hex, hpar, hblk, hmk, heff, hopen, hoe, hgit]
                  intro h
                  exact h.symm
            · simp only [Bool.not_eq_true] at hopen
              exfalso
              revert h
              simp [Plist.new, hex, hpar, hblk, hmk, heff, hopen, ioError_beq_otherError]

/-- Reading an absent identifier fails with the does-not-exist error. -/
theorem read_absent (env : Env) (fs : Node) (kind : String)
    (pathname : List String) (h : fs.lookup (kind :: pathname) = none) :
    Plist.read env fs kind pathname = (.exc .plistDoesNotExistError, []) := by
  have hex : fs.existsAt (kind :: pathname) = false := by
    unfold Node.existsAt
    rw [h]
    rfl
  simp [Plist.read, hex]

/-- Reading right after a structurally possible file write returns the
parse of the written bytes. -/
theorem read_after_setFile (env : Env) (fs1 : Node) (data : Bytes) (m : PDict)
    (kind : String) (pathname : List String)
    (hopen : fs1.openWriteOk (kind :: pathname) = true)
    (hparse : parsePlist data = some m)
    (hre : env.readErr = none) :
    Plist.read env (fs1.setFile (kind :: pathname) data) kind pathname =
      (.ok m, []) := by
  have hdir : fs1.isDirAt (kind :: pathname).dropLast = true := by
    unfold Node.openWriteOk at hopen
    exact (Bool.and_eq_true _ _ ▸ hopen).1
  have hlk := lookup_setFile (kind :: pathname) fs1 data hdir (by simp)
  have hex : (fs1.setFile (kind :: pathname) data).existsAt (kind :: pathname) = true := by
    unfold Node.existsAt
    rw [hlk]
    rfl
  simp [Plist.read, hex, hlk, hre, hparse]

/-! Claim theorems. -/

/-- C1: for every identifier whose resolved file already exists,
`new(kind, path, user, record)` fails with `PlistAlreadyExistsError`, the
repository tree is returned unchanged (so the existing file's contents
are untouched), and nothing is logged — the error is raised before any
filesystem mutation. -/
theorem claim_C1 (env : Env) (fs : Node) (kind : String)
    (pathname : List String) (user : String) (plist_data : Option PDict)
    (h : fs.existsAt (kind :: pathname) = true) :
    Plist.new env fs kind pathname user plist_data =
      ⟨.exc .plistAlreadyExistsError, fs, []⟩ := by
  simp [Plist.new, h]

def fsW1 : Node :=
  .dir [("manifests", .dir [("a.plist", .file (.wellFormed []))])]

theorem claim_C1_witness :
    Node.existsAt fsW1 ["manifests", "a.plist"] = true ∧
    Plist.new Env.quiet fsW1 "manifests" ["a.plist"] "alice" none =
      ⟨.exc .plistAlreadyExistsError, fsW1, []⟩ :=
  ⟨rfl, claim_C1 Env.quiet fsW1 "manifests" ["a.plist"] "alice" none rfl⟩

/-- C2: reading an existing file whose content fails structural parsing
surfaces no error and returns the empty mapping, while an I/O failure
(IOError or OSError, distinct from a parse failure) is wrapped as
`PlistReadError`, logged, and propagated. -/
theorem claim_C2 (env env' : Env) (fs : Node) (kind : String)
    (pathname : List String) (b : Bytes) (e : ErrKind) :
    (fs.lookup (kind :: pathname) = some (.file b) → parsePlist b = none →
      env.readErr = none →
      Plist.read env fs kind pathname = (.ok [], [])) ∧
    (fs.existsAt (kind :: pathname) = true → env'.readErr = some e →
      e ≠ .otherError →
      Plist.read env' fs kind pathname =
        (.exc .plistReadError, [.error "Read failed" kind pathname])) := by
  constructor
  · intro hf hp he
    have hex : fs.existsAt (kind :: pathname) = true := by
      unfold Node.existsAt
      rw [hf]
      rfl
    simp [Plist.read, hex, hf, he, hp]
  · intro hex he hne
    have hbe : (e == ErrKind.otherError) = false := beq_eq_false_iff_ne.2 hne
    cases hl : fs.lookup (kind :: pathname) with
    | none =>
      exfalso
      unfold Node.existsAt at hex
      rw [hl] at hex
      cases hex
    | some t =>
      cases t with
      | file c => simp [Plist.read, hex, hl, he, hbe]
      | dir cs => simp [Plist.read, hex, hl, ioError_beq_otherError]

def fsW2 : Node := .dir [("manifests", .dir [("bad", .file (.malformed 0))])]

def envW2 : Env := { Env.quiet with readErr := some .ioError }

theorem claim_C2_witness :
    Plist.read Env.quiet fsW2 "manifests" ["bad"] = (.ok [], []) ∧
    Plist.read envW2 fsW2 "manifests" ["bad"] =
      (.exc .plistReadError, [.error "Read failed" "manifests" ["bad"]]) :=
  ⟨(claim_C2 Env.quiet envW2 fsW2 "manifests" ["bad"] (.malformed 0)
      .ioError).1 rfl rfl rfl,
   (claim_C2 Env.quiet envW2 fsW2 "manifests" ["bad"] (.malformed 0)
      .ioError).2 rfl rfl (by decide)⟩

/-- C9: `new` with a provided but empty record behaves exactly as if the
record were omitted — Python truthiness of `if plist_data:` sends both to
the namespace default skeleton. -/
theorem claim_C9 (env : Env) (fs : Node) (kind : String)
    (pathname : List String) (user : String) :
    Plist.new env fs kind pathname user (some []) =
      Plist.new env fs kind pathname user none := by
  unfold Plist.new
  have h : effectivePlist kind (some []) = effectivePlist kind none := rfl
  rw [h]

/-- C10: `new` with no record and a kind outside the two known
namespaces raises the untyped unbound-local failure before the file is
written: no typed plist error is raised, nothing is logged, and no
regular file is created anywhere (at most intermediate directories). -/
theorem claim_C10 (env : Env) (fs : Node) (kind : String)
    (pathname : List String) (user : String)
    (hk1 : kind ≠ "manifests") (hk2 : kind ≠ "pkgsinfo")
    (hex : fs.existsAt (kind :: pathname) = false)
    (hnb : fs.mkdirBlocked ((kind :: pathname).dropLast) = false)
    (hmk : env.makedirsErr = none) :
    (Plist.new env fs kind pathname user none).result = .exc .unboundLocalError ∧
    (Plist.new env fs kind pathname user none).log = [] ∧
    ∀ p, (Plist.new env fs kind pathname user none).fs.isFileAt p =
      fs.isFileAt p := by
  have hb1 : (kind == "manifests") = false := beq_eq_false_iff_ne.2 hk1
  have hb2 : (kind == "pkgsinfo") = false := beq_eq_false_iff_ne.2 hk2
  have hdef : effectivePlist kind none = none := by
    simp [effectivePlist, defaultPlist, hb1, hb2]
  by_cases hpar : fs.existsAt ((kind :: pathname).dropLast) = true
  · simp [Plist.new, hex, hpar, hdef]
  · simp only [Bool.not_eq_true] at hpar
    simp [Plist.new, hex, hpar, hnb, hmk, hdef, isFileAt_mkdirAll]

def fsW10 : Node := .dir [("manifests", .dir []), ("pkgsinfo", .dir [])]

theorem claim_C10_witness :
    ("catalogs" : String) ≠ "manifests" ∧
    (Plist.new Env.quiet fsW10 "catalogs" ["c1"] "u" none).result =
      .exc .unboundLocalError :=
  ⟨by decide,
   (claim_C10 Env.quiet fsW10 "catalogs" ["c1"] "u" (by decide) (by decide)
      rfl rfl rfl).1⟩

/-- C3: after a successful `write(data, kind, path, user)` whose `data`
is valid structured content, `read(kind, path)` (with no independent
read-time I/O fault) returns exactly the parse of `data`: the bytes were
stored verbatim and parsed back. -/
theorem claim_C3 (env env' : Env) (fs : Node) (data : Bytes) (m : PDict)
    (kind : String) (pathname : List String) (user : String)
    (hok : (Plist.write env fs data kind pathname user).result = .ok ())
    (hparse : parsePlist data = some m)
    (hre : env'.readErr = none) :
    Plist.read env' (Plist.write env fs data kind pathname user).fs kind
      pathname = (.ok m, []) := by
  obtain ⟨fs1, hopen, hfs⟩ := write_ok_fs env fs data kind pathname user hok
  rw [hfs]
  exact read_after_setFile env' fs1 data m kind pathname hopen hparse hre

def fsW3 : Node := .dir [("manifests", .dir [])]

def dataW3 : Bytes := .wellFormed [("k", .str "v")]

theorem claim_C3_witness :
    Plist.read Env.quiet
      (Plist.write Env.quiet fsW3 dataW3 "manifests" ["a", "b"] "u").fs
      "manifests" ["a", "b"] = (.ok [("k", .str "v")], []) :=
  claim_C3 Env.quiet Env.quiet fsW3 dataW3 [("k", .str "v")] "manifests"
    ["a", "b"] "u" rfl rfl rfl

/-- C6: `new("manifests", p, user)` with no record writes a record that
parses to exactly the six keys `catalogs`, `included_manifests`,
`managed_installs`, `managed_uninstalls`, `managed_updates`,
`optional_installs`, each an empty sequence; `new("pkgsinfo", p, user)`
with no record writes a record that parses to exactly the five keys
`name`, `display_name`, `description`, `version`, `catalogs`, with
`catalogs` the one-element sequence `["development"]`. -/
theorem claim_C6 (env env' : Env) (fs fs' : Node) (p p' : List String)
    (u u' : String) (b b' : Bytes)
    (h1 : (Plist.new env fs "manifests" p u none).result = .ok b)
    (h2 : (Plist.new env' fs' "pkgsinfo" p' u' none).result = .ok b') :
    parsePlist b = some [("catalogs", .arr []), ("included_manifests", .arr []),
      ("managed_installs", .arr []), ("managed_uninstalls", .arr []),
      ("managed_updates", .arr []), ("optional_installs", .arr [])] ∧
    parsePlist b' = some [("name", .str "ProductName"),
      ("display_name", .str "Display Name"),
      ("description", .str "Product description"), ("version", .str "1.0"),
      ("catalogs", .arr [.str "development"])] := by
  obtain ⟨pl, hpl, hb⟩ := new_ok_inv env fs "manifests" p u none b h1
  obtain ⟨pl', hpl', hb'⟩ := new_ok_inv env' fs' "pkgsinfo" p' u' none b' h2
  subst hb
  subst hb'
  have e1 : manifestsSkeleton = pl := Option.some.inj hpl
  have e2 : pkgsinfoSkeleton = pl' := Option.some.inj hpl'
  constructor
  · rw [show parsePlist (writePlistToString pl) = some pl from rfl, ← e1]
    rfl
  · rw [show parsePlist (writePlistToString pl') = some pl' from rfl, ← e2]
    rfl

def fsW6 : Node := .dir [("manifests", .dir []), ("pkgsinfo", .dir [])]

theorem claim_C6_witness :
    parsePlist (writePlistToString manifestsSkeleton) =
      some [("catalogs", .arr []), ("included_manifests", .arr []),
        ("managed_installs", .arr []), ("managed_uninstalls", .arr []),
        ("managed_updates", .arr []), ("optional_installs", .arr [])] ∧
    parsePlist (writePlistToString pkgsinfoSkeleton) =
      some [("name", .str "ProductName"),
        ("display_name", .str "Display Name"),
        ("description", .str "Product description"), ("version", .str "1.0"),
        ("catalogs", .arr [.str "development"])] :=
  claim_C6 Env.quiet Env.quiet fsW6 fsW6 ["m1"] ["p1"] "u" "u"
    (writePlistToString manifestsSkeleton) (writePlistToString pkgsinfoSkeleton)
    rfl rfl

theorem wf_lookup_child (fs : Node) (kind : String) (t : Node)
    (hwf : Node.wf fs = true) (hl : fs.lookup [kind] = some t) :
    Node.wf t = true := by
  cases fs with
  | file c => simp [Node.lookup] at hl
  | dir cs =>
    rw [wf_dir_iff] at hwf
    simp only [Bool.and_eq_true] at hwf
    rw [lookup_dir_cons] at hl
    cases hc : childNamed kind cs with
    | none => rw [hc] at hl; cases hl
    | some u =>
      rw [hc] at hl
      have : u = t := by simpa [Node.lookup] using hl
      exact this ▸ wf_of_childNamed kind u cs hwf.2 hc

theorem lookup_cons_of_lookup_single (fs t : Node) (kind : String)
    (p : List String) (hl : fs.lookup [kind] = some t) :
    fs.lookup (kind :: p) = t.lookup p := by
  cases fs with
  | file c => simp [Node.lookup] at hl
  | dir cs =>
    rw [lookup_dir_cons] at hl
    rw [lookup_dir_cons]
    cases hc : childNamed kind cs with
    | none => rw [hc] at hl; cases hl
    | some u =>
      rw [hc] at hl
      have : u = t := by simpa [Node.lookup] using hl
      rw [this]

/-- C4: on a well-formed repository tree and a pathname made of real
directory-entry segments, `delete` on an absent identifier fails with
`PlistDoesNotExistError` leaving the tree untouched; and after a
successful `delete(kind, path, user)`, `read(kind, path)` fails with
`PlistDoesNotExistError` and `list(kind)` no longer contains the path. -/
theorem claim_C4 (env env' : Env) (fs : Node) (kind : String)
    (pathname : List String) (user : String)
    (hwf : Node.wf fs = true)
    (hvp : ∀ s ∈ pathname, validName s = true) :
    (fs.existsAt (kind :: pathname) = false →
      Plist.delete env fs kind pathname user =
        ⟨.exc .plistDoesNotExistError, fs, []⟩) ∧
    ((Plist.delete env fs kind pathname user).result = .ok () →
      Plist.read env' (Plist.delete env fs kind pathname user).fs kind
          pathname = (.exc .plistDoesNotExistError, []) ∧
      renderRel pathname ∉
        Plist.list (Plist.delete env fs kind pathname user).fs kind) := by
  constructor
  · intro hex
    simp [Plist.delete, hex]
  · intro hok
    obtain ⟨hfile, hfs⟩ := delete_ok_inv env fs kind pathname user hok
    have hrm : (fs.removeAt (kind :: pathname)).lookup (kind :: pathname) = none :=
      lookup_removeAt (kind :: pathname) fs hwf hfile (by simp)
    have hwf' : Node.wf (fs.removeAt (kind :: pathname)) = true :=
      wf_removeAt (kind :: pathname) fs hwf
    constructor
    · rw [hfs]
      exact read_absent env' _ kind pathname hrm
    · rw [hfs]
      intro hmem
      unfold Plist.list at hmem
      rcases hl : (fs.removeAt (kind :: pathname)).lookup [kind] with _ | t
      · rw [hl] at hmem
        cases hmem
      · rw [hl] at hmem
        have hwt : Node.wf t = true :=
          wf_lookup_child (fs.removeAt (kind :: pathname)) kind t hwf' hl
        cases t with
        | file c => simp [Node.walk] at hmem
        | dir cs =>
          obtain ⟨q, name, b, h1, h2, h3, _, _⟩ :=
            walkDir_sound cs "" (renderRel pathname) hwt hmem
          rw [joinAll_eq (q ++ [name]) "" h2, if_pos rfl] at h1
          have hpq : pathname = q ++ [name] :=
            renderRel_inj pathname (q ++ [name]) hvp h2 h1
          have hcontra :
              (fs.removeAt (kind :: pathname)).lookup (kind :: pathname) =
                some (.file b) := by
            rw [lookup_cons_of_lookup_single _ (Node.dir cs) kind pathname hl,
              hpq]
            exact h3
          rw [hrm] at hcontra
          cases hcontra

def fsW4 : Node :=
  .dir [("manifests", .dir [("f.plist", .file (.wellFormed []))])]

theorem claim_C4_witness :
    Plist.delete Env.quiet fsW4 "manifests" ["missing"] "u" =
      ⟨.exc .plistDoesNotExistError, fsW4, []⟩ ∧
    Plist.read Env.quiet
      (Plist.delete Env.quiet fsW4 "manifests" ["f.plist"] "u").fs
      "manifests" ["f.plist"] = (.exc .plistDoesNotExistError, []) ∧
    renderRel ["f.plist"] ∉
      Plist.list (Plist.delete Env.quiet fsW4 "manifests" ["f.plist"] "u").fs
        "manifests" :=
  ⟨(claim_C4 Env.quiet Env.quiet fsW4 "manifests" ["missing"] "u" rfl
      (by decide)).1 rfl,
   (claim_C4 Env.quiet Env.quiet fsW4 "manifests" ["f.plist"] "u" rfl
      (by decide)).2 rfl⟩

/-- C5 (amended): every entry returned by `list(kind)` on a well-formed
tree renders a segment path to a real file whose final segment does not
start with a dot and whose directory segments avoid the fixed pruned set
`.svn`, `.git`, `.AppleDouble`.  Hidden directories outside that fixed
set are still traversed (see the counterexample), so only this weaker
exclusion holds. -/
theorem claim_C5_amended (fs : Node) (kind : String) (x : String)
    (hwf : Node.wf fs = true) (hx : x ∈ Plist.list fs kind) :
    ∃ q name b, x = renderRel (q ++ [name]) ∧
      (∀ s ∈ q ++ [name], validName s = true) ∧
      fs.lookup (kind :: (q ++ [name])) = some (.file b) ∧
      startsWithDot name = false ∧
      (∀ d ∈ q, skipdirs.contains d = false) := by
  unfold Plist.list at hx
  rcases hl : fs.lookup [kind] with _ | t
  · rw [hl] at hx
    cases hx
  · rw [hl] at hx
    have hwt := wf_lookup_child fs kind t hwf hl
    cases t with
    | file c => simp [Node.walk] at hx
    | dir cs =>
      obtain ⟨q, name, b, h1, h2, h3, h4, h5⟩ := walkDir_sound cs "" x hwt hx
      rw [joinAll_eq (q ++ [name]) "" h2, if_pos rfl] at h1
      refine ⟨q, name, b, h1, h2, ?_, h4, h5⟩
      rw [lookup_cons_of_lookup_single fs (Node.dir cs) kind _ hl]
      exact h3

def fsC5 : Node := .dir [("manifests", .dir
  [(".hidden", .dir [("foo", .file (.wellFormed []))])])]

/-- C5 counterexample: on a well-formed repository whose `manifests`
namespace holds the file `.hidden/foo`, `list` returns `".hidden/foo"`,
an entry that passes through the hidden directory `.hidden` — so the
claim that every hidden entry (any name beginning with a dot) is
excluded from enumeration is false: only the fixed directories `.svn`,
`.git`, `.AppleDouble` are pruned. -/
theorem claim_C5_cex :
    Node.wf fsC5 = true ∧
    Plist.list fsC5 "manifests" = [".hidden/foo"] ∧
    renderRel [".hidden", "foo"] = ".hidden/foo" ∧
    startsWithDot ".hidden" = true :=
  ⟨rfl, rfl, rfl, rfl⟩

def fsW5 : Node :=
  .dir [("manifests", .dir [("good.plist", .file (.wellFormed []))])]

theorem claim_C5_witness :
    ∃ q name b, ("good.plist" : String) = renderRel (q ++ [name]) ∧
      (∀ s ∈ q ++ [name], validName s = true) ∧
      fsW5.lookup ("manifests" :: (q ++ [name])) = some (.file b) ∧
      startsWithDot name = false ∧
      (∀ d ∈ q, skipdirs.contains d = false) :=
  claim_C5_amended fsW5 "manifests" "good.plist" rfl (by decide)

/-- C7 (amended): in `new`, an IOError-kind or OSError-kind failure at
either the directory-creation or the file-write step is wrapped as
`PlistWriteError` and logged at error severity with the offending
kind/path.  In `write`, the file-write step likewise wraps both kinds,
but the directory-creation handler catches only OSError: an IOError-kind
failure there propagates unwrapped and unlogged (models.py line 144),
contrary to the original claim. -/
theorem claim_C7_amended (env : Env) (fs : Node) (data : Bytes)
    (kind : String) (pathname : List String) (user : String)
    (plist_data : Option PDict) (e : ErrKind) (pl : PDict) :
    (fs.existsAt (kind :: pathname) = false →
     fs.existsAt ((kind :: pathname).dropLast) = false →
     fs.mkdirBlocked ((kind :: pathname).dropLast) = false →
     env.makedirsErr = some e → e ≠ .otherError →
     Plist.new env fs kind pathname user plist_data =
       ⟨.exc .plistWriteError, fs, [.error "Create failed" kind pathname]⟩) ∧
    (fs.existsAt (kind :: pathname) = false →
     fs.existsAt ((kind :: pathname).dropLast) = true →
     effectivePlist kind plist_data = some pl →
     fs.openWriteOk (kind :: pathname) = true →
     env.openErr = some e → e ≠ .otherError →
     Plist.new env fs kind pathname user plist_data =
       ⟨.exc .plistWriteError, fs, [.error "Create failed" kind pathname]⟩) ∧
    (fs.existsAt ((kind :: pathname).dropLast) = false →
     fs.mkdirBlocked ((kind :: pathname).dropLast) = false →
     env.makedirsErr = some .osError →
     Plist.write env fs data kind pathname user =
       ⟨.exc .plistWriteError, fs, [.error "Create failed" kind pathname]⟩) ∧
    (fs.existsAt ((kind :: pathname).dropLast) = false →
     fs.mkdirBlocked ((kind :: pathname).dropLast) = false →
     env.makedirsErr = some .ioError →
     Plist.write env fs data kind pathname user =
       ⟨.exc (.uncaught .ioError), fs, []⟩) ∧
    (fs.existsAt ((kind :: pathname).dropLast) = true →
     fs.openWriteOk (kind :: pathname) = true →
     env.openErr = some e → e ≠ .otherError →
     Plist.write env fs data kind pathname user =
       ⟨.exc .plistWriteError, fs, [.error "Write failed" kind pathname]⟩) := by
  refine ⟨?_, ?_, ?_, ?_, ?_⟩
  · intro hex hpar hblk hmk hne
    have hbe : (e == ErrKind.otherError) = false := beq_eq_false_iff_ne.2 hne
    simp [Plist.new, hex, hpar, hblk, hmk, hbe]
  · intro hex hpar heff hopen hoe hne
    have hbe : (e == ErrKind.otherError) = false := beq_eq_false_iff_ne.2 hne
    simp [Plist.new, hex, hpar, heff, hopen, hoe, hbe]
  · intro hpar hblk hmk
    simp [Plist.write, hpar, hblk, hmk]
  · intro hpar hblk hmk
    simp [Plist.write, hpar, hblk, hmk]
  · intro hpar hopen hoe hne
    have hbe : (e == ErrKind.otherError) = false := beq_eq_false_iff_ne.2 hne
    simp [Plist.write, hpar, hopen, hoe, hbe]

def envC7 : Env := { Env.quiet with makedirsErr := some .ioError }

/-- C7 counterexample: an IOError-kind failure at the
directory-creation step of `write` escapes unwrapped (as the raw
uncaught exception, with nothing logged) instead of being turned into
`PlistWriteError` — the original claim is false for this input. -/
theorem claim_C7_cex :
    Plist.write envC7 fsW3 (.wellFormed []) "manifests" ["a", "b"] "u" =
      ⟨.exc (.uncaught .ioError), fsW3, []⟩ ∧
    PyExc.uncaught .ioError ≠ .plistWriteError :=
  ⟨rfl, by decide⟩

theorem claim_C7_witness :
    Plist.new envC7 fsW3 "manifests" ["a", "b"] "u" none =
      ⟨.exc .plistWriteError, fsW3,
       [.error "Create failed" "manifests" ["a", "b"]]⟩ ∧
    Plist.write envC7 fsW3 (.wellFormed []) "manifests" ["a", "b"] "u" =
      ⟨.exc (.uncaught .ioError), fsW3, []⟩ :=
  ⟨(claim_C7_amended envC7 fsW3 (.wellFormed []) "manifests" ["a", "b"] "u"
      none .ioError []).1 rfl rfl rfl rfl (by decide),
   (claim_C7_amended envC7 fsW3 (.wellFormed []) "manifests" ["a", "b"] "u"
      none .ioError []).2.2.2.1 rfl rfl rfl⟩

theorem existsAt_of_isFileAt (t : Node) (p : List String)
    (h : t.isFileAt p = true) : t.existsAt p = true := by
  unfold Node.isFileAt at h
  unfold Node.existsAt
  cases hl : t.lookup p with
  | none => rw [hl] at h; cases h
  | some u => rfl

/-- C8 (amended): a failure raised by the version-control recorder call
never rolls back the filesystem mutation — the resulting tree still
carries the written file (for `new`/`write`) or lacks the removed file
(for `delete`) — but the pattern is not fire-and-forget: the recorder
call sits inside the same try block as the mutation, so an IOError-kind
or OSError-kind recorder failure is caught and reported as the typed
`PlistWriteError`/`PlistDeleteError`, and any other recorder exception
propagates unwrapped.  The original claim that no typed error is ever
reported after a successful mutation is false. -/
theorem claim_C8_amended (env : Env) (fs : Node) (data : Bytes)
    (kind : String) (pathname : List String) (user : String)
    (plist_data : Option PDict) (e : ErrKind) (pl : PDict) :
    (fs.existsAt (kind :: pathname) = false →
     fs.existsAt ((kind :: pathname).dropLast) = true →
     effectivePlist kind plist_data = some pl →
     fs.openWriteOk (kind :: pathname) = true →
     env.openErr = none →
     ((user != "") && env.gitConfigured) = true →
     env.gitErr = some e →
     Plist.new env fs kind pathname user plist_data =
       ⟨(if e == .otherError then .exc (.uncaught e)
         else .exc .plistWriteError),
        fs.setFile (kind :: pathname) (writePlistToString pl),
        (if e == .otherError then [.info "Created" kind pathname]
         else [.info "Created" kind pathname,
               .error "Create failed" kind pathname])⟩) ∧
    (fs.existsAt ((kind :: pathname).dropLast) = true →
     fs.openWriteOk (kind :: pathname) = true →
     env.openErr = none →
     ((user != "") && env.gitConfigured) = true →
     env.gitErr = some e →
     Plist.write env fs data kind pathname user =
       ⟨(if e == .otherError then .exc (.uncaught e)
         else .exc .plistWriteError),
        fs.setFile (kind :: pathname) data,
        (if e == .otherError then [.info "Wrote" kind pathname]
         else [.info "Wrote" kind pathname,
               .error "Write failed" kind pathname])⟩) ∧
    (fs.isFileAt (kind :: pathname) = true →
     env.unlinkErr = none →
     ((user != "") && env.gitConfigured) = true →
     env.gitErr = some e →
     Plist.delete env fs kind pathname user =
       ⟨(if e == .otherError then .exc (.uncaught e)
         else .exc .plistDeleteError),
        fs.removeAt (kind :: pathname),
        (if e == .otherError then [.info "Deleted" kind pathname]
         else [.info "Deleted" kind pathname,
               .error "Delete failed" kind pathname])⟩) := by
  refine ⟨?_, ?_, ?_⟩
  · intro hex hpar heff hopen hoe hgit hge
    by_cases he : (e == ErrKind.otherError) = true
    · simp [Plist.new, hex, hpar, heff, hopen, hoe, hgit, hge, he]
    · simp only [Bool.not_eq_true] at he
      simp [Plist.new, hex, hpar, heff, hopen, hoe, hgit, hge, he]
  · intro hpar hopen hoe hgit hge
    by_cases he : (e == ErrKind.otherError) = true
    · simp [Plist.write, hpar, hopen, hoe, hgit, hge, he]
    · simp only [Bool.not_eq_true] at he
      simp [Plist.write, hpar, hopen, hoe, hgit, hge, he]
  · intro hfile hue hgit hge
    have hex := existsAt_of_isFileAt fs (kind :: pathname) hfile
    by_cases he : (e == ErrKind.otherError) = true
    · simp [Plist.delete, hex, hfile, hue, hgit, hge, he]
    · simp only [Bool.not_eq_true] at he
      simp [Plist.delete, hex, hfile, hue, hgit, hge, he]

def envC8 : Env :=
  { Env.quiet with gitConfigured := true, gitErr := some .osError }

/-- C8 counterexample: `delete` unlinks the file (the resulting tree no
longer contains it), then the recorder raises an OSError-kind failure,
and the call reports the typed `PlistDeleteError` — a typed error caused
solely by the recorder after a successful mutation, falsifying the
claim. -/
theorem claim_C8_cex :
    Plist.delete envC8 fsW4 "manifests" ["f.plist"] "alice" =
      ⟨.exc .plistDeleteError, .dir [("manifests", .dir [])],
       [.info "Deleted" "manifests" ["f.plist"],
        .error "Delete failed" "manifests" ["f.plist"]]⟩ :=
  rfl

theorem claim_C8_witness :
    Plist.delete envC8 fsW4 "manifests" ["f.plist"] "u" =
      ⟨.exc .plistDeleteError, fsW4.removeAt ["manifests", "f.plist"],
       [.info "Deleted" "manifests" ["f.plist"],
        .error "Delete failed" "manifests" ["f.plist"]]⟩ :=
  (claim_C8_amended envC8 fsW4 (.wellFormed []) "manifests" ["f.plist"] "u"
    none .osError []).2.2 rfl rfl rfl rfl
